import Mathlib

/-!
Verification development for the docstring benchmark pipeline.

The development embeds, as Lean functions, the traversal engine of
`symbol_extractor.py` (class `SymbolExtractor` and
`extract_symbols_from_project`), the stripping engine of
`docstring_remover.py` (class `DocstringRemover`), and the matching
algorithm of `similarity_checker.py` (`calculate_similarity`,
`match_symbols`).  Statements are modelled by a tagged tree: a plain
string-literal expression statement, the three declaration kinds that
the visitors override (class, function, async function), and an opaque
compound statement `other` holding the children that a generic visit
would recurse into.  Dictionaries are modelled by association lists in
insertion order; a dict update appends, and a read takes the last
binding (last write wins).
-/

namespace PyBench

mutual

/-- A Python statement as seen by the two visitors: a string-literal
expression statement, one of the three declaration kinds, or any other
statement (with the child statements a generic visit recurses into). -/
inductive Stmt where
| strExpr (s : String)
| classDef (name : String) (body : StmtList)
| funcDef (name : String) (body : StmtList)
| asyncFuncDef (name : String) (body : StmtList)
| other (children : StmtList)
deriving DecidableEq

/-- A sequence of statements (a declaration body). -/
inductive StmtList where
| nil
| cons (s : Stmt) (rest : StmtList)
deriving DecidableEq

end

/-- The docstring of a body: the value of its first statement when that
statement is a plain string-literal expression, as tested by the
`isinstance` chain shared by all visitors. -/
def headDoc : StmtList → Option String
| .cons (.strExpr s) _ => some s
| _ => none

/-- Whether a body's first statement is a string-literal expression. -/
def isStrHead : StmtList → Bool
| .cons (.strExpr _) _ => true
| _ => false

/-- Whether a body starts with two consecutive string-literal
expression statements. -/
def headTwo : StmtList → Bool
| .cons (.strExpr _) (.cons (.strExpr _) _) => true
| _ => false

mutual

/-- Records produced by `SymbolExtractor` when visiting one statement,
in visit (pre-)order.  Every declaration kind keys its docstring by
`current_module + "." + name`: the visitors read `self.current_module`,
which is fixed at construction, so nesting never extends the key. -/
def extractS (m : String) : Stmt → List (String × String)
| .strExpr _ => []
| .classDef n b =>
    (match headDoc b with
     | some d => [(m ++ "." ++ n, d)]
     | none => []) ++ extractL m b
| .funcDef n b =>
    (match headDoc b with
     | some d => [(m ++ "." ++ n, d)]
     | none => []) ++ extractL m b
| .asyncFuncDef n b =>
    (match headDoc b with
     | some d => [(m ++ "." ++ n, d)]
     | none => []) ++ extractL m b
| .other b => extractL m b

/-- Records produced by visiting a statement sequence left to right. -/
def extractL (m : String) : StmtList → List (String × String)
| .nil => []
| .cons s rest => extractS m s ++ extractL m rest

end

/-- `SymbolExtractor.visit(tree)` on a whole module named `m`: the
module-level docstring record (keyed by the module name itself),
followed by the records of the pre-order traversal of the body. -/
def extractModule (m : String) (body : StmtList) : List (String × String) :=
  (match headDoc body with
   | some d => [(m, d)]
   | none => []) ++ extractL m body

/-- Reading a key out of a record list with dict semantics: the last
binding for the key wins (later `update`s overwrite earlier ones). -/
def corpusLookup : List (String × String) → String → Option String
| [], _ => none
| (k, v) :: rest, key =>
    match corpusLookup rest key with
    | some r => some r
    | none => if k = key then some v else none

mutual

/-- `DocstringRemover` on one statement: the three declaration visitors
drop a leading string-literal statement from their body and recurse;
every other statement only has its children visited. -/
def stripS : Stmt → Stmt
| .strExpr s => .strExpr s
| .classDef n b => .classDef n (stripBody b)
| .funcDef n b => .funcDef n (stripBody b)
| .asyncFuncDef n b => .asyncFuncDef n (stripBody b)
| .other b => .other (stripEach b)

/-- A declaration body after `node.body = node.body[1:]` (when the head
is a string-literal statement) followed by the generic visit of the
remaining statements. -/
def stripBody : StmtList → StmtList
| .nil => .nil
| .cons (.strExpr _) rest => stripEach rest
| .cons s rest => .cons (stripS s) (stripEach rest)

/-- The generic visit of a statement sequence: each statement is
transformed in place, no head removal at this level. -/
def stripEach : StmtList → StmtList
| .nil => .nil
| .cons s rest => .cons (stripS s) (stripEach rest)

end

mutual

/-- Names of all declarations occurring (at any depth) in a statement. -/
def declNamesS : Stmt → List String
| .strExpr _ => []
| .classDef n b => n :: declNamesL b
| .funcDef n b => n :: declNamesL b
| .asyncFuncDef n b => n :: declNamesL b
| .other b => declNamesL b

/-- Names of all declarations occurring in a statement sequence. -/
def declNamesL : StmtList → List String
| .nil => []
| .cons s rest => declNamesS s ++ declNamesL rest

end

/-- Python's `str.endswith`, char by char. -/
def strEnds (s suffix : String) : Bool :=
  List.isSuffixOf suffix.data s.data

/-- Python's negative-index slice `s[:-n]`, char by char. -/
def strDropLast (s : String) (n : Nat) : String :=
  String.mk (s.data.take (s.data.length - n))

/-- `SymbolExtractor._get_module_name` after the external
`os.path.relpath` call, on the relative path it returns: strip a `.py`
extension (`rel_path[:-3]`), turn path separators into dots
(`replace(os.sep, '.')`, a single-character substitution), and collapse
a trailing `.__init__` segment (`module_name[:-9]`). -/
def get_module_name (relPath : String) : String :=
  let p := if strEnds relPath ".py" then strDropLast relPath 3 else relPath
  let m := String.mk (p.data.map (fun c => if c = '/' then '.' else c))
  if strEnds m ".__init__" then strDropLast m 9 else m

/-- `extract_symbols_from_project` over the per-file parse outcomes:
each file either fails to parse (`Except.error`, caught and logged) or
yields a module name and body.  A successful file's records are merged
into the accumulated corpus by dict `update` (modelled as append, read
through `corpusLookup`); a failing file leaves the corpus untouched and
the walk continues. -/
def extract_symbols_from_project
    (files : List (Except Unit (String × StmtList))) : List (String × String) :=
  files.foldl
    (fun acc f =>
      match f with
      | .error _ => acc
      | .ok (m, body) => acc ++ extractModule m body)
    []

/-- `calculate_similarity`, with the TF-IDF/cosine computation (external
library code) abstracted as a fallible `vectorize` parameter.  An empty
input on either side yields `0` before vectorization is consulted; a
vectorization failure is caught and yields `0`. -/
def calculate_similarity (vectorize : String → String → Except Unit ℚ)
    (text1 text2 : String) : ℚ :=
  if text1.isEmpty || text2.isEmpty then 0
  else
    match vectorize text1 text2 with
    | .ok v => v
    | .error _ => 0

/-- One record of the `results` list built by `match_symbols`. -/
structure MatchResult where
  summary_symbol : String
  docstring_symbol : String
  similarity : ℚ
  summary_description : String
  docstring_description : String
deriving DecidableEq

/-- The final dot-separated segment of a key, `key.split('.')[-1]`:
the characters after the last `'.'` (the whole key when it has none). -/
def leafSeg (key : String) : String :=
  String.mk (key.data.reverse.takeWhile (fun c => c ≠ '.')).reverse

/-- The fuzzy-candidate loop of `match_symbols`: walk the target map in
iteration (insertion) order carrying `best_match`, `best_similarity`
and `best_docstring_desc`; a candidate whose key's leaf segment equals
the source leaf updates the state when its score strictly exceeds the
running best. -/
def fuzzyGo (sim : String → String → ℚ) (desc leaf : String) :
    List (String × String) → Option String × ℚ × String → Option String × ℚ × String
| [], acc => acc
| (k, d) :: rest, (bm, bs, bd) =>
    if leafSeg k = leaf then
      let s := sim desc d
      if bs < s then fuzzyGo sim desc leaf rest (some k, s, d)
      else fuzzyGo sim desc leaf rest (bm, bs, bd)
    else fuzzyGo sim desc leaf rest (bm, bs, bd)

/-- The body of `match_symbols` for one summary entry: exact lookup
first; otherwise the fuzzy loop, whose winner is emitted when
`best_match` is truthy (a non-`None`, nonempty key) and the sentinel
record otherwise. -/
def matchOne (sim : String → String → ℚ) (target : List (String × String))
    (key desc : String) : MatchResult :=
  match target.lookup key with
  | some dd => ⟨key, key, sim desc dd, desc, dd⟩
  | none =>
    match fuzzyGo sim desc (leafSeg key) target (none, 0, "") with
    | (some k, bs, bd) =>
        if k.isEmpty then ⟨key, "NO_MATCH", 0, desc, ""⟩
        else ⟨key, k, bs, desc, bd⟩
    | (none, _, _) => ⟨key, "NO_MATCH", 0, desc, ""⟩

/-- `match_symbols`: one result per summary entry, in summary iteration
order. -/
def match_symbols (sim : String → String → ℚ)
    (summary target : List (String × String)) : List MatchResult :=
  summary.map (fun kv => matchOne sim target kv.1 kv.2)

/-- Whether a statement is a string-literal expression statement. -/
def isStr : Stmt → Bool
| .strExpr _ => true
| _ => false

mutual

/-- No declaration body inside the statement starts with two
consecutive string-literal expression statements. -/
def okS : Stmt → Bool
| .strExpr _ => true
| .classDef _ b => !headTwo b && okL b
| .funcDef _ b => !headTwo b && okL b
| .asyncFuncDef _ b => !headTwo b && okL b
| .other b => okL b

/-- List version of `okS`. -/
def okL : StmtList → Bool
| .nil => true
| .cons s rest => okS s && okL rest

end

/-- `okS` for a module body: the module body itself, and every nested
declaration body, avoids a double leading string literal. -/
def okBody (b : StmtList) : Bool :=
  !headTwo b && okL b

mutual

/-- No declaration body inside the statement starts with a
string-literal expression statement (the statement is fully stripped). -/
def strippedS : Stmt → Bool
| .strExpr _ => true
| .classDef _ b => !isStrHead b && strippedL b
| .funcDef _ b => !isStrHead b && strippedL b
| .asyncFuncDef _ b => !isStrHead b && strippedL b
| .other b => strippedL b

/-- List version of `strippedS`. -/
def strippedL : StmtList → Bool
| .nil => true
| .cons s rest => strippedS s && strippedL rest

end

/-- `strippedS` for a module body. -/
def strippedBody (b : StmtList) : Bool :=
  !isStrHead b && strippedL b

/-! Concrete example inputs used by counterexamples and witnesses. -/

/-- A module body holding a class `C` whose body is a method `f` with
docstring `"d"` (no other statements). -/
def exNested : StmtList :=
  .cons (.classDef "C" (.cons (.funcDef "f" (.cons (.strExpr "d") .nil)) .nil)) .nil

/-- A module body that is two consecutive string-literal statements. -/
def exDoubleDoc : StmtList :=
  .cons (.strExpr "a") (.cons (.strExpr "b") .nil)

/-- A module body holding one function whose body is only a docstring. -/
def exSolo : StmtList :=
  .cons (.funcDef "f" (.cons (.strExpr "doc") .nil)) .nil

/-- A module body that is a single docstring statement. -/
def exDocOnly : StmtList :=
  .cons (.strExpr "d") .nil

/-- A vectorizer stub that always succeeds with score `1` (the score
the TF-IDF/cosine computation assigns to two identical texts). -/
def vecOne : String → String → Except Unit ℚ := fun _ _ => .ok 1

/-- A vectorizer stub that always fails. -/
def vecFail : String → String → Except Unit ℚ := fun _ _ => .error ()

/-! Theorems. -/

mutual

/-- Every record a statement contributes is keyed by the fixed module
name, a dot, and the name of a declaration occurring in the statement:
the visitors never extend the prefix past `current_module`. -/
theorem extractS_key (m : String) : (s : Stmt) → (kv : String × String) →
    kv ∈ extractS m s → ∃ n, n ∈ declNamesS s ∧ kv.1 = m ++ "." ++ n
| .strExpr s, kv, h => by simp [extractS] at h
| .classDef n b, kv, h => by
    rcases hd : headDoc b with _ | d <;> rw [extractS, hd] at h
    · obtain ⟨n', hn', hk⟩ := extractL_key m b kv (by simpa using h)
      exact ⟨n', by simp [declNamesS, hn'], hk⟩
    · simp only [List.singleton_append, List.mem_cons] at h
      rcases h with h | h
      · exact ⟨n, by simp [declNamesS], by rw [h]⟩
      · obtain ⟨n', hn', hk⟩ := extractL_key m b kv h
        exact ⟨n', by simp [declNamesS, hn'], hk⟩
| .funcDef n b, kv, h => by
    rcases hd : headDoc b with _ | d <;> rw [extractS, hd] at h
    · obtain ⟨n', hn', hk⟩ := extractL_key m b kv (by simpa using h)
      exact ⟨n', by simp [declNamesS, hn'], hk⟩
    · simp only [List.singleton_append, List.mem_cons] at h
      rcases h with h | h
      · exact ⟨n, by simp [declNamesS], by rw [h]⟩
      · obtain ⟨n', hn', hk⟩ := extractL_key m b kv h
        exact ⟨n', by simp [declNamesS, hn'], hk⟩
| .asyncFuncDef n b, kv, h => by
    rcases hd : headDoc b with _ | d <;> rw [extractS, hd] at h
    · obtain ⟨n', hn', hk⟩ := extractL_key m b kv (by simpa using h)
      exact ⟨n', by simp [declNamesS, hn'], hk⟩
    · simp only [List.singleton_append, List.mem_cons] at h
      rcases h with h | h
      · exact ⟨n, by simp [declNamesS], by rw [h]⟩
      · obtain ⟨n', hn', hk⟩ := extractL_key m b kv h
        exact ⟨n', by simp [declNamesS, hn'], hk⟩
| .other b, kv, h => by
    obtain ⟨n', hn', hk⟩ := extractL_key m b kv (by simpa [extractS] using h)
    exact ⟨n', by simpa [declNamesS] using hn', hk⟩

/-- List version of `extractS_key`. -/
theorem extractL_key (m : String) : (b : StmtList) → (kv : String × String) →
    kv ∈ extractL m b → ∃ n, n ∈ declNamesL b ∧ kv.1 = m ++ "." ++ n
| .nil, kv, h => by simp [extractL] at h
| .cons s rest, kv, h => by
    rw [extractL] at h
    rcases List.mem_append.mp h with h | h
    · obtain ⟨n', hn', hk⟩ := extractS_key m s kv h
      exact ⟨n', by simp [declNamesL, hn'], hk⟩
    · obtain ⟨n', hn', hk⟩ := extractL_key m rest kv h
      exact ⟨n', by simp [declNamesL, hn'], hk⟩

end

/-- C1 (counterexample): for the method `f` of class `C` in module `m`,
extraction records the docstring under `m.f`, and no entry exists under
the lexically nested name `m.C.f`. -/
theorem c1_nested_key_counterexample :
    corpusLookup (extractModule "m" exNested) "m.C.f" = none ∧
    corpusLookup (extractModule "m" exNested) "m.f" = some "d" := by
  decide

/-- C1 (amended): every key the extractor records for a module body is
either the module name itself or the module name, a dot, and the bare
name of some declaration in the body — one segment, regardless of the
declaration's nesting depth. -/
theorem c1_flat_qualified_names (m : String) (body : StmtList)
    (kv : String × String) (h : kv ∈ extractModule m body) :
    kv.1 = m ∨ ∃ n, n ∈ declNamesL body ∧ kv.1 = m ++ "." ++ n := by
  rcases hd : headDoc body with _ | d <;> rw [extractModule, hd] at h
  · exact Or.inr (extractL_key m body kv (by simpa using h))
  · simp only [List.singleton_append, List.mem_cons] at h
    rcases h with h | h
    · exact Or.inl (by rw [h])
    · exact Or.inr (extractL_key m body kv h)

/-- C1 (witness): the amended statement applied to the concrete nested
example, whose only record is keyed `m.f`. -/
theorem c1_flat_qualified_names_witness :
    ("m.f", "d") ∈ extractModule "m" exNested ∧
    (("m.f", "d").1 = "m" ∨
      ∃ n, n ∈ declNamesL exNested ∧ ("m.f", "d").1 = "m" ++ "." ++ n) :=
  ⟨by decide, c1_flat_qualified_names "m" exNested ("m.f", "d") (by decide)⟩

/-- C4 (evaluation at the failing input): stripping a function whose
body is a single docstring leaves the body empty; no placeholder
statement is inserted. -/
theorem c4_empty_body_after_strip :
    stripS (.funcDef "f" (.cons (.strExpr "doc") .nil)) = .funcDef "f" .nil ∧
    stripBody exSolo = .cons (.funcDef "f" .nil) .nil := by
  decide

/-- C10: a package initializer directly at the base path keeps the
literal module name `__init__`; the trailing-segment collapse fires
only for initializers in a subdirectory, such as `pkg/__init__.py`. -/
theorem c10_init_at_base_path :
    get_module_name "__init__.py" = "__init__" ∧
    get_module_name "pkg/__init__.py" = "pkg" := by
  decide

/-- `stripS` never turns a non-string statement into a string-literal
statement, nor conversely. -/
theorem stripS_isStr (s : Stmt) : isStr (stripS s) = isStr s := by
  cases s <;> rfl

/-- A body whose head is not a string literal has no docstring. -/
theorem headDoc_of_not_isStrHead (b : StmtList) (h : isStrHead b = false) :
    headDoc b = none := by
  cases b with
  | nil => rfl
  | cons s rest => cases s <;> first | rfl | simp [isStrHead] at h

/-- The head of a `cons` body is a string literal iff the statement is. -/
theorem isStrHead_cons (s : Stmt) (rest : StmtList) :
    isStrHead (.cons s rest) = isStr s := by
  cases s <;> rfl

mutual

/-- Stripping a statement all of whose bodies avoid double leading
string literals yields a fully stripped statement. -/
theorem ok_stripped_S : (s : Stmt) → okS s = true → strippedS (stripS s) = true
| .strExpr _, _ => rfl
| .classDef n b, h => by
    rw [okS, Bool.and_eq_true] at h
    rw [stripS, strippedS, Bool.and_eq_true]
    have hb := ok_stripped_Body b (by rw [okBody, Bool.and_eq_true]; exact h)
    rw [strippedBody, Bool.and_eq_true] at hb
    exact hb
| .funcDef n b, h => by
    rw [okS, Bool.and_eq_true] at h
    rw [stripS, strippedS, Bool.and_eq_true]
    have hb := ok_stripped_Body b (by rw [okBody, Bool.and_eq_true]; exact h)
    rw [strippedBody, Bool.and_eq_true] at hb
    exact hb
| .asyncFuncDef n b, h => by
    rw [okS, Bool.and_eq_true] at h
    rw [stripS, strippedS, Bool.and_eq_true]
    have hb := ok_stripped_Body b (by rw [okBody, Bool.and_eq_true]; exact h)
    rw [strippedBody, Bool.and_eq_true] at hb
    exact hb
| .other b, h => by
    rw [okS] at h
    rw [stripS, strippedS]
    exact ok_stripped_L b h

/-- Generic visiting (no head removal) preserves `ok` into `stripped`
elementwise. -/
theorem ok_stripped_L : (b : StmtList) → okL b = true → strippedL (stripEach b) = true
| .nil, _ => rfl
| .cons s rest, h => by
    rw [okL, Bool.and_eq_true] at h
    rw [stripEach, strippedL, Bool.and_eq_true]
    exact ⟨ok_stripped_S s h.1, ok_stripped_L rest h.2⟩

/-- Stripping a body without a double leading string literal yields a
body whose head is no longer a string literal, recursively stripped. -/
theorem ok_stripped_Body : (b : StmtList) → okBody b = true → strippedBody (stripBody b) = true
| .nil, _ => rfl
| .cons (.strExpr s) rest, h => by
    rw [okBody, Bool.and_eq_true, okL, Bool.and_eq_true] at h
    rw [stripBody, strippedBody, Bool.and_eq_true]
    refine ⟨?_, ok_stripped_L rest h.2.2⟩
    cases rest with
    | nil => rfl
    | cons s' r =>
      rw [stripEach, isStrHead_cons, stripS_isStr]
      cases s' with
      | strExpr _ => simp [headTwo] at h
      | classDef _ _ => rfl
      | funcDef _ _ => rfl
      | asyncFuncDef _ _ => rfl
      | other _ => rfl
| .cons (.classDef n b') rest, h => by
    rw [okBody, Bool.and_eq_true, okL, Bool.and_eq_true] at h
    rw [stripBody, strippedBody, Bool.and_eq_true, isStrHead_cons, stripS_isStr,
      strippedL, Bool.and_eq_true]
    exact ⟨rfl, ok_stripped_S _ h.2.1, ok_stripped_L rest h.2.2⟩
    all_goals nofun
| .cons (.funcDef n b') rest, h => by
    rw [okBody, Bool.and_eq_true, okL, Bool.and_eq_true] at h
    rw [stripBody, strippedBody, Bool.and_eq_true, isStrHead_cons, stripS_isStr,
      strippedL, Bool.and_eq_true]
    exact ⟨rfl, ok_stripped_S _ h.2.1, ok_stripped_L rest h.2.2⟩
    all_goals nofun
| .cons (.asyncFuncDef n b') rest, h => by
    rw [okBody, Bool.and_eq_true, okL, Bool.and_eq_true] at h
    rw [stripBody, strippedBody, Bool.and_eq_true, isStrHead_cons, stripS_isStr,
      strippedL, Bool.and_eq_true]
    exact ⟨rfl, ok_stripped_S _ h.2.1, ok_stripped_L rest h.2.2⟩
    all_goals nofun
| .cons (.other b') rest, h => by
    rw [okBody, Bool.and_eq_true, okL, Bool.and_eq_true] at h
    rw [stripBody, strippedBody, Bool.and_eq_true, isStrHead_cons, stripS_isStr,
      strippedL, Bool.and_eq_true]
    exact ⟨rfl, ok_stripped_S _ h.2.1, ok_stripped_L rest h.2.2⟩
    all_goals nofun

end

mutual

/-- A fully stripped statement contributes no extraction records. -/
theorem stripped_extractS (m : String) : (s : Stmt) → strippedS s = true →
    extractS m s = []
| .strExpr _, _ => rfl
| .classDef n b, h => by
    rw [strippedS, Bool.and_eq_true] at h
    rw [extractS, headDoc_of_not_isStrHead b (by simpa using h.1),
      stripped_extractL m b h.2]
    rfl
| .funcDef n b, h => by
    rw [strippedS, Bool.and_eq_true] at h
    rw [extractS, headDoc_of_not_isStrHead b (by simpa using h.1),
      stripped_extractL m b h.2]
    rfl
| .asyncFuncDef n b, h => by
    rw [strippedS, Bool.and_eq_true] at h
    rw [extractS, headDoc_of_not_isStrHead b (by simpa using h.1),
      stripped_extractL m b h.2]
    rfl
| .other b, h => by
    rw [strippedS] at h
    rw [extractS, stripped_extractL m b h]

/-- List version of `stripped_extractS`. -/
theorem stripped_extractL (m : String) : (b : StmtList) → strippedL b = true →
    extractL m b = []
| .nil, _ => rfl
| .cons s rest, h => by
    rw [strippedL, Bool.and_eq_true] at h
    rw [extractL, stripped_extractS m s h.1, stripped_extractL m rest h.2]
    rfl

end

/-- A fully stripped module yields an empty extraction map. -/
theorem stripped_extractModule (m : String) (b : StmtList)
    (h : strippedBody b = true) : extractModule m b = [] := by
  rw [strippedBody, Bool.and_eq_true] at h
  rw [extractModule, headDoc_of_not_isStrHead b (by simpa using h.1),
    stripped_extractL m b h.2]
  rfl

mutual

/-- Stripping a fully stripped statement changes nothing. -/
theorem stripped_fix_S : (s : Stmt) → strippedS s = true → stripS s = s
| .strExpr _, _ => rfl
| .classDef n b, h => by
    rw [strippedS, Bool.and_eq_true] at h
    rw [stripS, stripped_fix_Body b (by rw [strippedBody, Bool.and_eq_true]; exact h)]
| .funcDef n b, h => by
    rw [strippedS, Bool.and_eq_true] at h
    rw [stripS, stripped_fix_Body b (by rw [strippedBody, Bool.and_eq_true]; exact h)]
| .asyncFuncDef n b, h => by
    rw [strippedS, Bool.and_eq_true] at h
    rw [stripS, stripped_fix_Body b (by rw [strippedBody, Bool.and_eq_true]; exact h)]
| .other b, h => by
    rw [strippedS] at h
    rw [stripS, stripped_fix_L b h]

/-- Generic visiting of a fully stripped sequence changes nothing. -/
theorem stripped_fix_L : (b : StmtList) → strippedL b = true → stripEach b = b
| .nil, _ => rfl
| .cons s rest, h => by
    rw [strippedL, Bool.and_eq_true] at h
    rw [stripEach, stripped_fix_S s h.1, stripped_fix_L rest h.2]

/-- Stripping a fully stripped body changes nothing. -/
theorem stripped_fix_Body : (b : StmtList) → strippedBody b = true → stripBody b = b
| .nil, _ => rfl
| .cons (.strExpr s) rest, h => by
    rw [strippedBody] at h
    simp [isStrHead] at h
| .cons (.classDef n b') rest, h => by
    rw [strippedBody, Bool.and_eq_true, strippedL, Bool.and_eq_true] at h
    rw [stripBody, stripped_fix_S _ h.2.1, stripped_fix_L rest h.2.2]
    all_goals nofun
| .cons (.funcDef n b') rest, h => by
    rw [strippedBody, Bool.and_eq_true, strippedL, Bool.and_eq_true] at h
    rw [stripBody, stripped_fix_S _ h.2.1, stripped_fix_L rest h.2.2]
    all_goals nofun
| .cons (.asyncFuncDef n b') rest, h => by
    rw [strippedBody, Bool.and_eq_true, strippedL, Bool.and_eq_true] at h
    rw [stripBody, stripped_fix_S _ h.2.1, stripped_fix_L rest h.2.2]
    all_goals nofun
| .cons (.other b') rest, h => by
    rw [strippedBody, Bool.and_eq_true, strippedL, Bool.and_eq_true] at h
    rw [stripBody, stripped_fix_S _ h.2.1, stripped_fix_L rest h.2.2]
    all_goals nofun

end

/-- C2 (counterexample): on a module body of two consecutive string
statements, extraction documents the module with `"a"`, yet stripping
removes only the first string, so re-extraction documents the very same
symbol again (now with `"b"`). -/
theorem c2_roundtrip_counterexample :
    corpusLookup (extractModule "m" exDoubleDoc) "m" = some "a" ∧
    corpusLookup (extractModule "m" (stripBody exDoubleDoc)) "m" = some "b" := by
  decide

/-- C2 (amended): provided no declaration body in the tree starts with
two consecutive string-literal statements, extract → strip → re-extract
yields no entry for any previously documented symbol (indeed the
re-extraction map is empty). -/
theorem c2_strip_roundtrip (m : String) (b : StmtList) (hok : okBody b = true)
    (k : String) (hdoc : (corpusLookup (extractModule m b) k).isSome = true) :
    corpusLookup (extractModule m (stripBody b)) k = none := by
  rw [stripped_extractModule m (stripBody b) (ok_stripped_Body b hok)]
  rfl

/-- C2 (witness): the amended statement on a module whose body is a
single docstring. -/
theorem c2_strip_roundtrip_witness :
    (okBody exDocOnly = true ∧
      (corpusLookup (extractModule "m" exDocOnly) "m").isSome = true) ∧
    corpusLookup (extractModule "m" (stripBody exDocOnly)) "m" = none :=
  ⟨⟨by decide, by decide⟩, c2_strip_roundtrip "m" exDocOnly (by decide) "m" (by decide)⟩

/-- C3 (counterexample): stripping the two-string module body once
leaves one string statement; stripping again removes it too, so the
second application is not the identity on the first result. -/
theorem c3_idempotent_counterexample :
    stripBody (stripBody exDoubleDoc) ≠ stripBody exDoubleDoc := by
  decide

/-- C3 (amended): stripping is idempotent on every tree in which no
declaration body starts with two consecutive string-literal
statements. -/
theorem c3_strip_idempotent (b : StmtList) (hok : okBody b = true) :
    stripBody (stripBody b) = stripBody b :=
  stripped_fix_Body (stripBody b) (ok_stripped_Body b hok)

/-- C3 (witness): the amended statement on the single-docstring
module. -/
theorem c3_strip_idempotent_witness :
    okBody exDocOnly = true ∧
    stripBody (stripBody exDocOnly) = stripBody exDocOnly :=
  ⟨by decide, c3_strip_idempotent exDocOnly (by decide)⟩

/-- C9: a file whose per-file extraction fails contributes nothing to
the accumulated corpus — the corpus after the whole run equals the one
obtained with that file removed from the list, so the failing file is
skipped atomically and the remaining files are still processed. -/
theorem c9_failed_file_atomic (pre post : List (Except Unit (String × StmtList)))
    (e : Unit) :
    extract_symbols_from_project (pre ++ Except.error e :: post) =
      extract_symbols_from_project (pre ++ post) := by
  simp [extract_symbols_from_project, List.foldl_append]

/-- C8: the similarity computation is total by structure.  When either
text is empty the score is `0` and the vectorizer is never consulted
(the result is unchanged under replacing the vectorizer); when the
vectorizer fails, the failure is swallowed and the score is `0`. -/
theorem c8_similarity_fail_soft
    (v v' : String → String → Except Unit ℚ) (t1 t2 : String) :
    ((t1.isEmpty || t2.isEmpty) = true →
      calculate_similarity v t1 t2 = 0 ∧
        calculate_similarity v t1 t2 = calculate_similarity v' t1 t2) ∧
    (v t1 t2 = Except.error () →
      calculate_similarity v t1 t2 = 0) := by
  constructor
  · intro he
    rw [calculate_similarity, calculate_similarity, he]
    exact ⟨rfl, rfl⟩
  · intro hv
    rw [calculate_similarity]
    split
    · rfl
    · rw [hv]

/-- C8 (witness): the empty-text branch at a failing vectorizer against
an always-succeeding one, and the failure branch on nonempty texts. -/
theorem c8_similarity_fail_soft_witness :
    (calculate_similarity vecFail "" "a" = 0 ∧
      calculate_similarity vecFail "" "a" = calculate_similarity vecOne "" "a") ∧
    calculate_similarity vecFail "x" "y" = 0 :=
  ⟨(c8_similarity_fail_soft vecFail vecOne "" "a").1 (by decide),
   (c8_similarity_fail_soft vecFail vecOne "x" "y").2 rfl⟩

/-- A successful association-list lookup names a binding of the list. -/
theorem lookup_mem : ∀ (l : List (String × String)) (k v : String),
    l.lookup k = some v → (k, v) ∈ l
| [], _, _, h => by simp at h
| (k', v') :: rest, k, v, h => by
    rw [List.lookup_cons] at h
    cases hk : (k == k') with
    | true =>
      rw [hk] at h
      cases h
      exact (eq_of_beq hk) ▸ List.mem_cons_self _ _
    | false =>
      rw [hk] at h
      exact List.mem_cons_of_mem _ (lookup_mem rest k v h)

/-- The fuzzy loop either never updates its state, or ends on some
candidate of the list whose score strictly beats the incoming best. -/
theorem fuzzyGo_cases (sim : String → String → ℚ) (desc leaf : String) :
    ∀ (l : List (String × String)) (bm : Option String) (bs : ℚ) (bd : String),
    fuzzyGo sim desc leaf l (bm, bs, bd) = (bm, bs, bd) ∨
    ∃ k d, (k, d) ∈ l ∧ leafSeg k = leaf ∧
      fuzzyGo sim desc leaf l (bm, bs, bd) = (some k, sim desc d, d) ∧
      bs < sim desc d
| [], bm, bs, bd => Or.inl rfl
| (k, d) :: rest, bm, bs, bd => by
    rw [fuzzyGo]
    by_cases hleaf : leafSeg k = leaf
    · rw [if_pos hleaf]
      by_cases hs : bs < sim desc d
      · rw [if_pos hs]
        rcases fuzzyGo_cases sim desc leaf rest (some k) (sim desc d) d with h | ⟨k', d', hm, hl', he, hlt⟩
        · exact Or.inr ⟨k, d, List.mem_cons_self _ _, hleaf, h, hs⟩
        · exact Or.inr ⟨k', d', List.mem_cons_of_mem _ hm, hl', he, lt_trans hs hlt⟩
      · rw [if_neg hs]
        rcases fuzzyGo_cases sim desc leaf rest bm bs bd with h | ⟨k', d', hm, hl', he, hlt⟩
        · exact Or.inl h
        · exact Or.inr ⟨k', d', List.mem_cons_of_mem _ hm, hl', he, hlt⟩
    · rw [if_neg hleaf]
      rcases fuzzyGo_cases sim desc leaf rest bm bs bd with h | ⟨k', d', hm, hl', he, hlt⟩
      · exact Or.inl h
      · exact Or.inr ⟨k', d', List.mem_cons_of_mem _ hm, hl', he, hlt⟩

/-- The final best score of the fuzzy loop dominates the incoming best
and the score of every candidate of the list. -/
theorem fuzzyGo_best_ge (sim : String → String → ℚ) (desc leaf : String) :
    ∀ (l : List (String × String)) (bm : Option String) (bs : ℚ) (bd : String),
    bs ≤ (fuzzyGo sim desc leaf l (bm, bs, bd)).2.1 ∧
    ∀ k d, (k, d) ∈ l → leafSeg k = leaf →
      sim desc d ≤ (fuzzyGo sim desc leaf l (bm, bs, bd)).2.1
| [], bm, bs, bd => ⟨le_refl bs, by intro k d hm; simp at hm⟩
| (k, d) :: rest, bm, bs, bd => by
    rw [fuzzyGo]
    by_cases hleaf : leafSeg k = leaf
    · rw [if_pos hleaf]
      by_cases hs : bs < sim desc d
      · rw [if_pos hs]
        obtain ⟨h1, h2⟩ := fuzzyGo_best_ge sim desc leaf rest (some k) (sim desc d) d
        refine ⟨le_trans (le_of_lt hs) h1, ?_⟩
        intro k' d' hm hl'
        rcases List.mem_cons.mp hm with he | hm'
        · cases he; exact h1
        · exact h2 k' d' hm' hl'
      · rw [if_neg hs]
        obtain ⟨h1, h2⟩ := fuzzyGo_best_ge sim desc leaf rest bm bs bd
        refine ⟨h1, ?_⟩
        intro k' d' hm hl'
        rcases List.mem_cons.mp hm with he | hm'
        · cases he; exact le_trans (le_of_not_lt hs) h1
        · exact h2 k' d' hm' hl'
    · rw [if_neg hleaf]
      obtain ⟨h1, h2⟩ := fuzzyGo_best_ge sim desc leaf rest bm bs bd
      refine ⟨h1, ?_⟩
      intro k' d' hm hl'
      rcases List.mem_cons.mp hm with he | hm'
      · cases he; exact absurd hl' hleaf
      · exact h2 k' d' hm' hl'

/-- C7: a source entry whose key is literally present in the target map
is resolved as an exact match: the emitted record names the key itself
and scores the two texts, whatever fuzzy candidates the target holds;
the record appears in the `match_symbols` output for any source map
containing the entry. -/
theorem c7_exact_match_preferred (sim : String → String → ℚ)
    (src tgt : List (String × String)) (k d dd : String)
    (hmem : (k, d) ∈ src) (hdd : tgt.lookup k = some dd) :
    matchOne sim tgt k d = ⟨k, k, sim d dd, d, dd⟩ ∧
    (⟨k, k, sim d dd, d, dd⟩ : MatchResult) ∈ match_symbols sim src tgt := by
  have h1 : matchOne sim tgt k d = ⟨k, k, sim d dd, d, dd⟩ := by
    rw [matchOne, hdd]
  exact ⟨h1, by rw [match_symbols]; exact List.mem_map.mpr ⟨(k, d), hmem, h1⟩⟩

/-- C7 (witness): an exact key hit wins even with a same-leaf fuzzy
candidate present in the target map. -/
theorem c7_exact_match_preferred_witness :
    (("a.f", "x") ∈ [("a.f", "x")] ∧
      ([("a.f", "dd"), ("b.f", "zz")].lookup "a.f" = some "dd")) ∧
    matchOne (calculate_similarity vecOne) [("a.f", "dd"), ("b.f", "zz")] "a.f" "x" =
      ⟨"a.f", "a.f", calculate_similarity vecOne "x" "dd", "x", "dd"⟩ :=
  ⟨⟨by decide, by decide⟩,
   (c7_exact_match_preferred (calculate_similarity vecOne) [("a.f", "x")]
      [("a.f", "dd"), ("b.f", "zz")] "a.f" "x" "dd" (by decide) (by decide)).1⟩

/-- C5 (counterexample): for a source key absent from the target map
but with a leaf-segment candidate present (target text empty, so the
candidate scores `0`), the matcher emits the sentinel instead of naming
the maximum-scoring candidate. -/
theorem c5_sentinel_counterexample :
    ([("b.f", "")].lookup "a.f" = none) ∧
    leafSeg "b.f" = leafSeg "a.f" ∧
    matchOne (calculate_similarity vecOne) [("b.f", "")] "a.f" "x" =
      ⟨"a.f", "NO_MATCH", 0, "x", ""⟩ := by
  decide

/-- C5 (amended): over a target map whose keys are nonempty and never
the literal sentinel, the matcher emits the sentinel exactly when the
key is absent from the target map and every leaf-segment candidate
scores at most `0`; when some candidate scores positively, the emitted
result names a candidate instead. -/
theorem c5_sentinel_iff (sim : String → String → ℚ)
    (tgt : List (String × String)) (key desc : String)
    (hkeys : ∀ kv ∈ tgt, kv.1 ≠ "" ∧ kv.1 ≠ "NO_MATCH") :
    (matchOne sim tgt key desc).docstring_symbol = "NO_MATCH" ↔
      (tgt.lookup key = none ∧
        ∀ kv ∈ tgt, leafSeg kv.1 = leafSeg key → sim desc kv.2 ≤ 0) := by
  cases hl : tgt.lookup key with
  | some dd =>
    have hkey := (hkeys (key, dd) (lookup_mem tgt key dd hl)).2
    simp only [matchOne, hl]
    constructor
    · intro h; exact absurd h hkey
    · intro h; exact Option.noConfusion h.1
  | none =>
    simp only [matchOne, hl]
    rcases fuzzyGo_cases sim desc (leafSeg key) tgt none 0 "" with hfz | ⟨k, d, hm, hlf, hfz, hpos⟩
    · rw [hfz]
      constructor
      · intro _
        refine ⟨by trivial, ?_⟩
        intro kv hmem hleaf
        have h2 := (fuzzyGo_best_ge sim desc (leafSeg key) tgt none 0 "").2 kv.1 kv.2 hmem hleaf
        rw [hfz] at h2
        exact h2
      · intro _; rfl
    · have hk := hkeys (k, d) hm
      have hkE : ¬(k.isEmpty = true) := fun hEmp => hk.1 ((String.isEmpty_iff k).mp hEmp)
      simp only [hfz, if_neg hkE]
      constructor
      · intro h; exact absurd h hk.2
      · intro h; exact absurd hpos (not_lt.mpr (h.2 (k, d) hm hlf))

/-- C5 (witness): the amended rule on the zero-scoring candidate
example — key absent, sole candidate scores `0`, sentinel emitted. -/
theorem c5_sentinel_iff_witness :
    (∀ kv ∈ [("b.f", "")], kv.1 ≠ "" ∧ kv.1 ≠ "NO_MATCH") ∧
    ((matchOne (calculate_similarity vecOne) [("b.f", "")] "a.f" "x").docstring_symbol
        = "NO_MATCH" ↔
      ([("b.f", "")].lookup "a.f" = none ∧
        ∀ kv ∈ [("b.f", "")], leafSeg kv.1 = leafSeg "a.f" →
          calculate_similarity vecOne "x" kv.2 ≤ 0)) :=
  ⟨by decide,
   c5_sentinel_iff (calculate_similarity vecOne) [("b.f", "")] "a.f" "x" (by decide)⟩

/-- The fuzzy loop ignores entries whose leaf segment differs from the
source leaf: it behaves as the loop over the filtered candidate list. -/
theorem fuzzyGo_filter (sim : String → String → ℚ) (desc leaf : String) :
    ∀ (l : List (String × String)) (bm : Option String) (bs : ℚ) (bd : String),
    fuzzyGo sim desc leaf l (bm, bs, bd) =
      fuzzyGo sim desc leaf (l.filter (fun kv => leafSeg kv.1 == leaf)) (bm, bs, bd)
| [], bm, bs, bd => rfl
| (k, d) :: rest, bm, bs, bd => by
    rw [List.filter_cons]
    by_cases hleaf : leafSeg k = leaf
    · rw [if_pos (by simpa using hleaf), fuzzyGo, fuzzyGo, if_pos hleaf, if_pos hleaf]
      by_cases hs : bs < sim desc d
      · rw [if_pos hs, if_pos hs]
        exact fuzzyGo_filter sim desc leaf rest (some k) (sim desc d) d
      · rw [if_neg hs, if_neg hs]
        exact fuzzyGo_filter sim desc leaf rest bm bs bd
    · rw [if_neg (by simpa using hleaf), fuzzyGo, if_neg hleaf]
      exact fuzzyGo_filter sim desc leaf rest bm bs bd

/-- When no remaining candidate strictly beats the running best, the
fuzzy loop keeps its state. -/
theorem fuzzyGo_no_update (sim : String → String → ℚ) (desc leaf : String) :
    ∀ (l : List (String × String)) (bm : Option String) (bs : ℚ) (bd : String),
    (∀ kv ∈ l, leafSeg kv.1 = leaf → sim desc kv.2 ≤ bs) →
    fuzzyGo sim desc leaf l (bm, bs, bd) = (bm, bs, bd)
| [], bm, bs, bd, _ => rfl
| (k, d) :: rest, bm, bs, bd, h => by
    rw [fuzzyGo]
    by_cases hleaf : leafSeg k = leaf
    · rw [if_pos hleaf,
        if_neg (not_lt.mpr (h (k, d) (List.mem_cons_self _ _) hleaf))]
      exact fuzzyGo_no_update sim desc leaf rest bm bs bd
        (fun kv hm => h kv (List.mem_cons_of_mem _ hm))
    · rw [if_neg hleaf]
      exact fuzzyGo_no_update sim desc leaf rest bm bs bd
        (fun kv hm => h kv (List.mem_cons_of_mem _ hm))

/-- On a list of candidates (all sharing the source leaf) split as
`pre ++ c :: post` where `c` strictly beats the incoming best and every
earlier candidate, and is not beaten later, the loop ends on `c`. -/
theorem fuzzyGo_first_max (sim : String → String → ℚ) (desc leaf : String) :
    ∀ (pre : List (String × String)) (c : String × String)
      (post : List (String × String)) (bm : Option String) (bs : ℚ) (bd : String),
    (∀ x ∈ pre ++ c :: post, leafSeg x.1 = leaf) →
    bs < sim desc c.2 →
    (∀ p ∈ pre, sim desc p.2 < sim desc c.2) →
    (∀ q ∈ post, sim desc q.2 ≤ sim desc c.2) →
    fuzzyGo sim desc leaf (pre ++ c :: post) (bm, bs, bd) =
      (some c.1, sim desc c.2, c.2)
| [], c, post, bm, bs, bd, hall, hbs, _, hpost => by
    rw [List.nil_append, fuzzyGo,
      if_pos (hall c (List.mem_cons_self _ _)), if_pos hbs]
    exact fuzzyGo_no_update sim desc leaf post (some c.1) (sim desc c.2) c.2
      (fun kv hm _ => hpost kv hm)
| p :: pre, c, post, bm, bs, bd, hall, hbs, hpre, hpost => by
    rw [List.cons_append, fuzzyGo,
      if_pos (hall p (List.mem_cons_self _ _))]
    by_cases hs : bs < sim desc p.2
    · rw [if_pos hs]
      exact fuzzyGo_first_max sim desc leaf pre c post (some p.1) (sim desc p.2) p.2
        (fun x hx => hall x (List.mem_cons_of_mem _ hx))
        (hpre p (List.mem_cons_self _ _))
        (fun x hx => hpre x (List.mem_cons_of_mem _ hx)) hpost
    · rw [if_neg hs]
      exact fuzzyGo_first_max sim desc leaf pre c post bm bs bd
        (fun x hx => hall x (List.mem_cons_of_mem _ hx)) hbs
        (fun x hx => hpre x (List.mem_cons_of_mem _ hx)) hpost

/-- C6 (counterexample): two target maps that are permutations of one
another (equal as key-value mappings, both candidates scoring the same
positive similarity) produce different `matchedSymbol`s: the code keeps
the first maximum in insertion order, so no order-independent rule
governs the tie. -/
theorem c6_order_dependence_counterexample :
    List.Perm [("b.f", "compute foo"), ("c.f", "compute foo")]
      [("c.f", "compute foo"), ("b.f", "compute foo")] ∧
    (matchOne (calculate_similarity vecOne)
      [("b.f", "compute foo"), ("c.f", "compute foo")]
      "a.f" "compute foo").docstring_symbol = "b.f" ∧
    (matchOne (calculate_similarity vecOne)
      [("c.f", "compute foo"), ("b.f", "compute foo")]
      "a.f" "compute foo").docstring_symbol = "c.f" := by
  refine ⟨List.Perm.swap _ _ _, ?_, ?_⟩ <;> decide

/-- C6 (amended): the tie-break the code implements is target-map
iteration (insertion) order — for a source key missing from the target,
if the candidate list splits as `pre ++ c :: post` with `c` scoring
positively, strictly above every earlier candidate and at least every
later one, then `c` (the first maximum in order) is the emitted match.
The result is thus a function of the target map as an ordered sequence,
not of the mapping alone. -/
theorem c6_first_maximum_wins (sim : String → String → ℚ)
    (tgt : List (String × String)) (key desc : String)
    (hl : tgt.lookup key = none)
    (pre : List (String × String)) (c : String × String)
    (post : List (String × String))
    (hsplit : tgt.filter (fun kv => leafSeg kv.1 == leafSeg key) = pre ++ c :: post)
    (hpos : 0 < sim desc c.2)
    (hpre : ∀ p ∈ pre, sim desc p.2 < sim desc c.2)
    (hpost : ∀ q ∈ post, sim desc q.2 ≤ sim desc c.2)
    (hne : c.1 ≠ "") :
    (matchOne sim tgt key desc).docstring_symbol = c.1 := by
  have hall : ∀ x ∈ pre ++ c :: post, leafSeg x.1 = leafSeg key := by
    intro x hx
    have : x ∈ tgt.filter (fun kv => leafSeg kv.1 == leafSeg key) := hsplit ▸ hx
    simpa using (List.mem_filter.mp this).2
  have hfz : fuzzyGo sim desc (leafSeg key) tgt (none, 0, "") =
      (some c.1, sim desc c.2, c.2) := by
    rw [fuzzyGo_filter, hsplit]
    exact fuzzyGo_first_max sim desc (leafSeg key) pre c post none 0 "" hall hpos hpre hpost
  have hkE : ¬(c.1.isEmpty = true) := fun hEmp => hne ((String.isEmpty_iff c.1).mp hEmp)
  simp only [matchOne, hl, hfz, if_neg hkE]

/-- C6 (witness): the first-in-order maximum rule on the concrete
two-candidate tie. -/
theorem c6_first_maximum_wins_witness :
    (([("b.f", "compute foo"), ("c.f", "compute foo")].lookup "a.f" = none) ∧
      [("b.f", "compute foo"), ("c.f", "compute foo")].filter
          (fun kv => leafSeg kv.1 == leafSeg "a.f") =
        [] ++ ("b.f", "compute foo") :: [("c.f", "compute foo")] ∧
      0 < calculate_similarity vecOne "compute foo" "compute foo") ∧
    (matchOne (calculate_similarity vecOne)
      [("b.f", "compute foo"), ("c.f", "compute foo")]
      "a.f" "compute foo").docstring_symbol = "b.f" :=
  ⟨⟨by decide, by decide, by decide⟩,
   c6_first_maximum_wins (calculate_similarity vecOne)
     [("b.f", "compute foo"), ("c.f", "compute foo")] "a.f" "compute foo"
     (by decide) [] ("b.f", "compute foo") [("c.f", "compute foo")]
     (by decide) (by decide)
     (by intro p hp; simp at hp)
     (by intro q hq; simp only [List.mem_singleton] at hq; subst hq; decide)
     (by decide)⟩

end PyBench
